import Mathlib

/-
Verification of deardayone (src/deardayone.py): a shallow embedding of the
incremental reMarkable-to-Day-One export engine, together with theorems about
its diffing, export loop, state persistence, setup carry-over and external
command construction.

Filesystem reads, external tool invocations and config writes are modelled as
explicit effect traces; external tool results are an oracle `String → Outcome`
indexed by page identifier; Python dictionaries with possibly-missing keys are
modelled with `Option`; Python `int(...)` applied to a JSON scalar is modelled
as a partial parse returning `Option Int` (with `none` standing for the raised
`ValueError`/`TypeError`).
-/

namespace DearDayOne

/-- Scalar JSON value, as found under the per-page timestamp keys of a
reMarkable `.content` descriptor. -/
inductive JVal where
  | str (s : String)
  | num (n : Int)
  | boolean (b : Bool)
  | null
deriving DecidableEq, Repr

/-- Python truthiness of a scalar JSON value (`if modified_ms`): nonempty
string, nonzero number, `True`; `None` and `""` and `0` are falsy. -/
def pyTruthy : JVal → Bool
  | .str s => s ≠ ""
  | .num n => n ≠ 0
  | .boolean b => b
  | .null => false

/-- Digit accumulator for `pyIntOfString`: remaining characters must be digits,
with single underscores allowed only between digits (CPython's rule). -/
def pyDigitsGo (acc : Nat) : List Char → Option Nat
  | [] => some acc
  | '_' :: c :: rest =>
      if c.isDigit then pyDigitsGo (10 * acc + (c.toNat - 48)) rest else none
  | c :: rest =>
      if c.isDigit then pyDigitsGo (10 * acc + (c.toNat - 48)) rest else none

/-- Leading digit then `pyDigitsGo`: a nonempty digit string with optional
single underscores between digits. -/
def pyDigits : List Char → Option Nat
  | [] => none
  | c :: rest => if c.isDigit then pyDigitsGo (c.toNat - 48) rest else none

/-- Python's whitespace set for `str.strip()` (ASCII part). -/
def pyIsSpace (c : Char) : Bool :=
  c = ' ' || c = '\t' || c = '\n' || c = '\r' || c = '\x0b' || c = '\x0c'

/-- Strip `pyIsSpace` characters from both ends of a character list. -/
def pyStrip (cs : List Char) : List Char :=
  List.reverse (List.dropWhile pyIsSpace (List.reverse (List.dropWhile pyIsSpace cs)))

/-- Python `int(s)` on a string: strip surrounding whitespace, optional sign,
then digits; `none` models the raised `ValueError`. -/
def pyIntOfString (s : String) : Option Int :=
  match pyStrip s.toList with
  | [] => none
  | c :: rest =>
      if c = '-' then (pyDigits rest).map (fun n => -(n : Int))
      else if c = '+' then (pyDigits rest).map (fun n => (n : Int))
      else (pyDigits (c :: rest)).map (fun n => (n : Int))

/-- Python `int(v)` on a scalar JSON value; `none` models the raised
`ValueError` (bad string) or `TypeError` (`None`). -/
def pyToInt : JVal → Option Int
  | .str s => pyIntOfString s
  | .num n => some n
  | .boolean b => some (if b then 1 else 0)
  | .null => none

/-- One entry of the content descriptor's `cPages.pages` list: the `id`,
`modifed` (sic) and `modified` keys, each possibly absent. -/
structure RawPage where
  id : Option String
  modifed : Option JVal
  modified : Option JVal
deriving DecidableEq, Repr

/-- Resolved page record produced by `get_page_list`:
`{id, modified_ms}`. -/
structure PageInfo where
  id : String
  modified_ms : Int
deriving DecidableEq, Repr

/-- The timestamp value `p.get("modifed", p.get("modified", "0"))` of
src/deardayone.py line 149. -/
def timestampField (p : RawPage) : JVal :=
  match p.modifed with
  | some v => v
  | none =>
      match p.modified with
      | some v => v
      | none => .str ("0")

/-- The expression `int(modified_ms) if modified_ms else 0` of
src/deardayone.py line 152; `none` models a raised exception. -/
def timestampMs (v : JVal) : Option Int :=
  if pyTruthy v then pyToInt v else some 0

/-- Embedding of `get_page_list` (src/deardayone.py lines 127-154), applied to
the already-parsed `cPages.pages` list: keep pages having an `id`, resolve the
timestamp from `modifed` with fallback `modified` then `"0"`; `none` models the
uncaught exception raised by `int(...)` on a truthy unparsable value. -/
def get_page_list : List RawPage → Option (List PageInfo)
  | [] => some []
  | p :: rest =>
      match p.id with
      | none => get_page_list rest
      | some pid =>
          match timestampMs (timestampField p) with
          | none => none
          | some ms => (get_page_list rest).map (fun r => ⟨pid, ms⟩ :: r)

/-- The persisted configuration (config.json): `exported_pages` is `none` when
the key is absent from the stored document. -/
structure Config where
  remarkable_notebook_guid : String
  remarkable_notebook_name : String
  dayone_journal : String
  exported_pages : Option (List String)
deriving DecidableEq, Repr

/-- Filesystem operation performed by the state store; the write payload is the
configuration itself (serialization is not modelled). -/
inductive FsOp where
  | mkdirp (path : String)
  | write (path : String) (cfg : Config)
  | rename (src : String) (dst : String)
deriving DecidableEq, Repr

/-- Path of the configuration directory (src/deardayone.py line 17). -/
def CONFIG_DIR : String := "~/.config/deardayone"

/-- Path of the configuration file (src/deardayone.py line 18). -/
def CONFIG_FILE : String := "~/.config/deardayone/config.json"

/-- Path of the dayone binary (src/deardayone.py line 21). -/
def DAYONE_BIN : String := "/usr/local/bin/dayone"

/-- Embedding of `save_config` (src/deardayone.py lines 32-36) as the list of
filesystem operations it performs: `mkdir -p` on the config directory, then a
direct in-place write of the config file. -/
def save_config (cfg : Config) : List FsOp :=
  [FsOp.mkdirp CONFIG_DIR, FsOp.write CONFIG_FILE cfg]

/-- True when some operation of the list is a rename. -/
def usesRename (ops : List FsOp) : Bool :=
  ops.any fun op =>
    match op with
    | FsOp.rename _ _ => true
    | _ => false

/-- Embedding of the command vector built by `create_dayone_entry`
(src/deardayone.py lines 195-216); the `if` guards mirror Python truthiness of
the arguments (empty string / empty list falsy). -/
def create_dayone_entry_cmd (journal date_str : String) (tags : List String)
    (attachment_path body_text : String) : List String :=
  let cmd := [DAYONE_BIN]
  let cmd := cmd ++ (if journal ≠ "" then ["--journal", journal] else [])
  let cmd := cmd ++ (if date_str ≠ "" then ["--date", date_str] else [])
  let cmd := cmd ++ (if tags ≠ [] then ["--tags"] ++ tags else [])
  let cmd := cmd ++ (if attachment_path ≠ "" then ["--attachments", attachment_path] else [])
  let cmd := cmd ++ ["--"]
  cmd ++ ["new", body_text]

/-- The spec's "scalar options" segment of the publisher command: journal and
date flags only. Stated from the spec's words, for comparison with
`create_dayone_entry_cmd`. -/
def scalarOptions (journal date_str : String) : List String :=
  (if journal ≠ "" then ["--journal", journal] else [])
    ++ (if date_str ≠ "" then ["--date", date_str] else [])

/-- The spec's "variadic options" segment of the publisher command: tags and
attachment flags only. Stated from the spec's words, for comparison with
`create_dayone_entry_cmd`. -/
def variadicOptions (tags : List String) (attachment_path : String) : List String :=
  (if tags ≠ [] then ["--tags"] ++ tags else [])
    ++ (if attachment_path ≠ "" then ["--attachments", attachment_path] else [])

/-- Embedding of the configuration constructed and saved by `run_setup`
(src/deardayone.py lines 308-321): the exported set is carried forward exactly
when an existing config has the same notebook guid. -/
def run_setup_config (existing : Option Config)
    (selectedGuid selectedName journal : String) : Config :=
  let exported_pages : List String :=
    match existing with
    | some e =>
        if e.remarkable_notebook_guid = selectedGuid then e.exported_pages.getD []
        else []
    | none => []
  { remarkable_notebook_guid := selectedGuid
    remarkable_notebook_name := selectedName
    dayone_journal := journal
    exported_pages := some exported_pages }

/-- Resolved entry date of a page (src/deardayone.py lines 367-372): the
content-descriptor timestamp when positive, otherwise the stroke file's mtime
(kept symbolic, indexed by page id). -/
inductive PageDate where
  | fromMs (ms : Int)
  | fromMtime (pageId : String)
deriving DecidableEq, Repr

/-- Date selection for one resolved page (src/deardayone.py lines 368-372). -/
def pageDateOf (info : PageInfo) : PageDate :=
  if info.modified_ms > 0 then .fromMs info.modified_ms else .fromMtime info.id

/-- One element of the `to_export` list: `(i, page_id, rm_file, page_date)`
with the rm path determined by the id. -/
structure PendingPage where
  idx : Nat
  id : String
  date : PageDate
deriving DecidableEq, Repr

/-- Embedding of the DIFFING loop of `run_export` (src/deardayone.py lines
358-373), carrying the `enumerate` counter: a page is kept iff its id is not in
the exported set and its `.rm` file exists. -/
def computePendingAux (exported : List String) (rmExists : String → Bool) :
    Nat → List PageInfo → List PendingPage
  | _, [] => []
  | i, info :: rest =>
      if info.id ∈ exported then computePendingAux exported rmExists (i + 1) rest
      else if rmExists info.id then
        ⟨i, info.id, pageDateOf info⟩ :: computePendingAux exported rmExists (i + 1) rest
      else computePendingAux exported rmExists (i + 1) rest

/-- The `to_export` list of `run_export` (src/deardayone.py lines 358-373). -/
def computePending (exported : List String) (rmExists : String → Bool)
    (infos : List PageInfo) : List PendingPage :=
  computePendingAux exported rmExists 0 infos

/-- Observable effect of a run: external tool invocations, config saves, and
dry-run report lines. -/
inductive Effect where
  | convert (pageId : String)
  | publish (pageId : String) (journal : String) (date : String) (body : String)
      (tags : List String)
  | save (cfg : Config)
  | printPending (pos : Nat) (shortId : String) (date : String)
deriving DecidableEq, Repr

/-- Oracle for the two fallible external stages applied to one page: both
succeed, the conversion pipeline fails, or conversion succeeds and the publish
fails. -/
inductive Outcome where
  | ok
  | convertFail (msg : String)
  | publishFail (msg : String)
deriving DecidableEq, Repr

/-- Python `set.add` on the model of the exported set: membership-preserving
insert. -/
def pySetAdd (l : List String) (x : String) : List String :=
  if x ∈ l then l else l ++ [x]

/-- Body text `f"Page {page_num} of {notebook_name}"` for the page at 0-based
declared position `idx` (src/deardayone.py line 411). -/
def pageBody (notebookName : String) (idx : Nat) : String :=
  "Page " ++ toString (idx + 1) ++ " of " ++ notebookName

/-- Result of the EXPORTING loop: final config dict, final exported set,
success and error counters, and the effect trace. -/
structure LoopResult where
  cfg : Config
  exported : List String
  okCount : Nat
  errCount : Nat
  trace : List Effect
deriving DecidableEq, Repr

/-- Embedding of the EXPORTING loop of `run_export` (src/deardayone.py lines
394-428): per pending page, convert, publish, then add to the exported set and
save the config; on failure of either stage, count the error and continue. -/
def exportLoop (outcome : String → Outcome) (fmt : PageDate → String)
    (notebookName journal : String) :
    Config → List String → List PendingPage → LoopResult
  | cfg, exported, [] => ⟨cfg, exported, 0, 0, []⟩
  | cfg, exported, pp :: rest =>
      let dateStr := fmt pp.date
      let body := pageBody notebookName pp.idx
      let tags := ["reMarkable", notebookName]
      match outcome pp.id with
      | .ok =>
          let exported2 := pySetAdd exported pp.id
          let cfg2 := { cfg with exported_pages := some exported2 }
          let r := exportLoop outcome fmt notebookName journal cfg2 exported2 rest
          ⟨r.cfg, r.exported, r.okCount + 1, r.errCount,
            .convert pp.id :: .publish pp.id journal dateStr body tags :: .save cfg2 :: r.trace⟩
      | .convertFail _ =>
          let r := exportLoop outcome fmt notebookName journal cfg exported rest
          ⟨r.cfg, r.exported, r.okCount, r.errCount + 1, .convert pp.id :: r.trace⟩
      | .publishFail _ =>
          let r := exportLoop outcome fmt notebookName journal cfg exported rest
          ⟨r.cfg, r.exported, r.okCount, r.errCount + 1,
            .convert pp.id :: .publish pp.id journal dateStr body tags :: r.trace⟩

/-- Environment of one `run_export` call: the loaded config, whether the
notebook's metadata file exists, the parsed `cPages.pages` list of the
notebook's content descriptor, stroke-file existence, date formatting, and the
external-tool oracle. -/
structure Env where
  config : Option Config
  metaExists : String → Bool
  contentPages : List RawPage
  rmExists : String → Bool
  fmt : PageDate → String
  outcome : String → Outcome

/-- Terminal state of one `run_export` call. -/
inductive RunOutcome where
  | exitNoConfig
  | exitNotebookMissing
  | crash
  | noPages
  | nothingToExport
  | dryRunDone
  | done (okCount : Nat) (errCount : Nat)
deriving DecidableEq, Repr

/-- Embedding of `run_export` (src/deardayone.py lines 330-433): config load,
notebook validation, page resolution (where a raised exception is `crash`),
diffing, then either the dry-run report or the export loop. -/
def run_export (env : Env) (dryRun : Bool) : RunOutcome × List Effect :=
  match env.config with
  | none => (.exitNoConfig, [])
  | some cfg =>
      let guid := cfg.remarkable_notebook_guid
      let notebookName := cfg.remarkable_notebook_name
      let journal := cfg.dayone_journal
      let exported := cfg.exported_pages.getD []
      if env.metaExists guid = false then (.exitNotebookMissing, [])
      else
        match get_page_list env.contentPages with
        | none => (.crash, [])
        | some pageInfos =>
            if pageInfos.isEmpty then (.noPages, [])
            else
              let pending := computePending exported env.rmExists pageInfos
              if pending.isEmpty then (.nothingToExport, [])
              else if dryRun then
                (.dryRunDone,
                  pending.map fun pp =>
                    .printPending (pp.idx + 1) (pp.id.take 8) (env.fmt pp.date))
              else
                let r := exportLoop env.outcome env.fmt notebookName journal cfg
                  exported pending
                (.done r.okCount r.errCount, r.trace)

/-- The pending list a run over `env` computes, as a standalone function. -/
def pendingOf (env : Env) : List PendingPage :=
  match env.config, get_page_list env.contentPages with
  | some cfg, some infos =>
      computePending (cfg.exported_pages.getD []) env.rmExists infos
  | _, _ => []

/-- Every element that the diffing loop keeps comes from a declared position of
the page list, with its id not yet exported and its stroke file present. -/
theorem computePendingAux_sound (e : List String) (r : String → Bool) :
    ∀ (l : List PageInfo) (n : Nat) (pp : PendingPage),
      pp ∈ computePendingAux e r n l →
      ∃ jdx info, l[jdx]? = some info ∧ pp.idx = n + jdx ∧ pp.id = info.id
        ∧ pp.date = pageDateOf info ∧ info.id ∉ e ∧ r info.id = true := by
  intro l
  induction l with
  | nil => intro n pp h; simp [computePendingAux] at h
  | cons hd tl ih =>
      intro n pp h
      by_cases h1 : hd.id ∈ e
      · simp only [computePendingAux, if_pos h1] at h
        obtain ⟨jdx, info, hg, hi, hid, hd2, hm, hr⟩ := ih (n + 1) pp h
        exact ⟨jdx + 1, info, by simpa using hg, by omega, hid, hd2, hm, hr⟩
      · by_cases h2 : r hd.id = true
        · simp only [computePendingAux, if_neg h1, if_pos h2, List.mem_cons] at h
          rcases h with h | h
          · subst h
            exact ⟨0, hd, by simp, by simp, rfl, rfl, h1, h2⟩
          · obtain ⟨jdx, info, hg, hi, hid, hd2, hm, hr⟩ := ih (n + 1) pp h
            exact ⟨jdx + 1, info, by simpa using hg, by omega, hid, hd2, hm, hr⟩
        · simp only [computePendingAux, if_neg h1, if_neg h2] at h
          obtain ⟨jdx, info, hg, hi, hid, hd2, hm, hr⟩ := ih (n + 1) pp h
          exact ⟨jdx + 1, info, by simpa using hg, by omega, hid, hd2, hm, hr⟩

/-- Every declared page whose id is not yet exported and whose stroke file is
present is kept by the diffing loop, at its declared position. -/
theorem computePendingAux_complete (e : List String) (r : String → Bool) :
    ∀ (l : List PageInfo) (n jdx : Nat) (info : PageInfo),
      l[jdx]? = some info → info.id ∉ e → r info.id = true →
      (⟨n + jdx, info.id, pageDateOf info⟩ : PendingPage) ∈ computePendingAux e r n l := by
  intro l
  induction l with
  | nil => intro n jdx info h; simp at h
  | cons hd tl ih =>
      intro n jdx info hget hmem hr
      cases jdx with
      | zero =>
          simp only [List.getElem?_cons_zero, Option.some.injEq] at hget
          subst hget
          simp [computePendingAux, hmem, hr]
      | succ j2 =>
          simp only [List.getElem?_cons_succ] at hget
          have hrec := ih (n + 1) j2 info hget hmem hr
          have harith : n + (j2 + 1) = (n + 1) + j2 := by omega
          rw [harith]
          by_cases h1 : hd.id ∈ e
          · simpa [computePendingAux, h1] using hrec
          · by_cases h2 : r hd.id = true
            · simp only [computePendingAux, if_neg h1, if_pos h2]
              exact List.mem_cons_of_mem _ hrec
            · simp only [computePendingAux, if_neg h1, if_neg h2]
              exact hrec

/-- Characterization of the pending list: an entry is pending exactly when it
is a declared page, at its declared 0-based position, not yet exported, with a
stroke file on disk, and carries the resolved date. -/
theorem mem_computePending_iff (e : List String) (r : String → Bool)
    (infos : List PageInfo) (pp : PendingPage) :
    pp ∈ computePending e r infos ↔
      ∃ jdx info, infos[jdx]? = some info ∧ pp.idx = jdx ∧ pp.id = info.id
        ∧ pp.date = pageDateOf info ∧ info.id ∉ e ∧ r info.id = true := by
  constructor
  · intro h
    obtain ⟨jdx, info, hg, hi, hid, hd2, hm, hr⟩ := computePendingAux_sound e r infos 0 pp h
    exact ⟨jdx, info, hg, by omega, hid, hd2, hm, hr⟩
  · rintro ⟨jdx, info, hg, hi, hid, hd2, hm, hr⟩
    have hc := computePendingAux_complete e r infos 0 jdx info hg hm hr
    have hpp : pp = ⟨jdx, info.id, pageDateOf info⟩ := by
      obtain ⟨pidx, pid, pdate⟩ := pp
      simp only at hi hid hd2
      simp [hi, hid, hd2]
    rw [hpp]
    simpa using hc

/-- Pending entries all have unexported ids and a stroke file on disk. -/
theorem computePending_conds (e : List String) (r : String → Bool)
    (infos : List PageInfo) (pp : PendingPage)
    (h : pp ∈ computePending e r infos) : pp.id ∉ e ∧ r pp.id = true := by
  obtain ⟨jdx, info, hg, hi, hid, hd2, hm, hr⟩ :=
    (mem_computePending_iff e r infos pp).mp h
  rw [hid]
  exact ⟨hm, hr⟩

/-- The diffing loop only emits indices at or above its counter. -/
theorem computePendingAux_idx_le (e : List String) (r : String → Bool) :
    ∀ (l : List PageInfo) (n : Nat) (pp : PendingPage),
      pp ∈ computePendingAux e r n l → n ≤ pp.idx := by
  intro l
  induction l with
  | nil => intro n pp h; simp [computePendingAux] at h
  | cons hd tl ih =>
      intro n pp h
      by_cases h1 : hd.id ∈ e
      · simp only [computePendingAux, if_pos h1] at h
        have := ih (n + 1) pp h; omega
      · by_cases h2 : r hd.id = true
        · simp only [computePendingAux, if_neg h1, if_pos h2, List.mem_cons] at h
          rcases h with h | h
          · subst h; simp
          · have := ih (n + 1) pp h; omega
        · simp only [computePendingAux, if_neg h1, if_neg h2] at h
          have := ih (n + 1) pp h; omega

/-- The pending list is emitted in strictly increasing declared-position
order. -/
theorem computePending_pairwise (e : List String) (r : String → Bool)
    (infos : List PageInfo) :
    (computePending e r infos).Pairwise (fun a b => a.idx < b.idx) := by
  suffices h : ∀ (l : List PageInfo) (n : Nat),
      (computePendingAux e r n l).Pairwise (fun a b => a.idx < b.idx) by
    exact h infos 0
  intro l
  induction l with
  | nil => intro n; simp [computePendingAux]
  | cons hd tl ih =>
      intro n
      by_cases h1 : hd.id ∈ e
      · simpa only [computePendingAux, if_pos h1] using ih (n + 1)
      · by_cases h2 : r hd.id = true
        · simp only [computePendingAux, if_neg h1, if_pos h2, List.pairwise_cons]
          refine ⟨fun pp hpp => ?_, ih (n + 1)⟩
          have := computePendingAux_idx_le e r tl (n + 1) pp hpp
          omega
        · simpa only [computePendingAux, if_neg h1, if_neg h2] using ih (n + 1)

/-- Membership after a Python `set.add`. -/
theorem mem_pySetAdd (l : List String) (x y : String) :
    y ∈ pySetAdd l x ↔ y ∈ l ∨ y = x := by
  by_cases h : x ∈ l
  · simp only [pySetAdd, if_pos h]
    constructor
    · exact Or.inl
    · rintro (h1 | rfl)
      · exact h1
      · exact h
  · simp [pySetAdd, if_neg h]

/-- The success counter counts exactly the pending pages whose two external
stages both succeed. -/
theorem exportLoop_okCount (o : String → Outcome) (f : PageDate → String)
    (name jour : String) :
    ∀ (pending : List PendingPage) (cfg : Config) (exp : List String),
      (exportLoop o f name jour cfg exp pending).okCount
        = pending.countP (fun pp => decide (o pp.id = Outcome.ok)) := by
  intro pending
  induction pending with
  | nil => intro cfg exp; simp [exportLoop]
  | cons pp rest ih =>
      intro cfg exp
      cases ho : o pp.id with
      | ok => simp [exportLoop, ho, ih, List.countP_cons]
      | convertFail m => simp [exportLoop, ho, ih, List.countP_cons]
      | publishFail m => simp [exportLoop, ho, ih, List.countP_cons]

/-- The error counter counts exactly the pending pages for which a stage
fails. -/
theorem exportLoop_errCount (o : String → Outcome) (f : PageDate → String)
    (name jour : String) :
    ∀ (pending : List PendingPage) (cfg : Config) (exp : List String),
      (exportLoop o f name jour cfg exp pending).errCount
        = pending.countP (fun pp => decide (o pp.id ≠ Outcome.ok)) := by
  intro pending
  induction pending with
  | nil => intro cfg exp; simp [exportLoop]
  | cons pp rest ih =>
      intro cfg exp
      cases ho : o pp.id with
      | ok => simp [exportLoop, ho, ih, List.countP_cons]
      | convertFail m => simp [exportLoop, ho, ih, List.countP_cons]
      | publishFail m => simp [exportLoop, ho, ih, List.countP_cons]

/-- A page id is in the final exported set iff it was there initially or it is
a pending page whose export fully succeeded. -/
theorem exportLoop_mem_exported (o : String → Outcome) (f : PageDate → String)
    (name jour : String) :
    ∀ (pending : List PendingPage) (cfg : Config) (exp : List String)
      (pid : String),
      pid ∈ (exportLoop o f name jour cfg exp pending).exported
        ↔ pid ∈ exp ∨ ∃ pp, pp ∈ pending ∧ pp.id = pid ∧ o pp.id = Outcome.ok := by
  intro pending
  induction pending with
  | nil => intro cfg exp pid; simp [exportLoop]
  | cons pp rest ih =>
      intro cfg exp pid
      cases ho : o pp.id with
      | ok =>
          simp only [exportLoop, ho, ih, mem_pySetAdd, List.mem_cons]
          constructor
          · rintro ((h | rfl) | ⟨pp2, h2, rfl, h4⟩)
            · exact Or.inl h
            · exact Or.inr ⟨pp, Or.inl rfl, rfl, ho⟩
            · exact Or.inr ⟨pp2, Or.inr h2, rfl, h4⟩
          · rintro (h | ⟨pp2, h2 | h2, rfl, h4⟩)
            · exact Or.inl (Or.inl h)
            · subst h2; exact Or.inl (Or.inr rfl)
            · exact Or.inr ⟨pp2, h2, rfl, h4⟩
      | convertFail m =>
          simp only [exportLoop, ho, ih, List.mem_cons]
          constructor
          · rintro (h | ⟨pp2, h2, rfl, h4⟩)
            · exact Or.inl h
            · exact Or.inr ⟨pp2, Or.inr h2, rfl, h4⟩
          · rintro (h | ⟨pp2, h2 | h2, rfl, h4⟩)
            · exact Or.inl h
            · subst h2; rw [ho] at h4; exact absurd h4 (by simp)
            · exact Or.inr ⟨pp2, h2, rfl, h4⟩
      | publishFail m =>
          simp only [exportLoop, ho, ih, List.mem_cons]
          constructor
          · rintro (h | ⟨pp2, h2, rfl, h4⟩)
            · exact Or.inl h
            · exact Or.inr ⟨pp2, Or.inr h2, rfl, h4⟩
          · rintro (h | ⟨pp2, h2 | h2, rfl, h4⟩)
            · exact Or.inl h
            · subst h2; rw [ho] at h4; exact absurd h4 (by simp)
            · exact Or.inr ⟨pp2, h2, rfl, h4⟩

/-- Every configuration the loop saves has an `exported_pages` field whose
members were exported before the run or succeeded during it. -/
theorem exportLoop_save_sound (o : String → Outcome) (f : PageDate → String)
    (name jour : String) :
    ∀ (pending : List PendingPage) (cfg : Config) (exp : List String)
      (c : Config),
      Effect.save c ∈ (exportLoop o f name jour cfg exp pending).trace →
      ∃ l2, c.exported_pages = some l2
        ∧ ∀ pid ∈ l2, pid ∈ exp ∨ o pid = Outcome.ok := by
  intro pending
  induction pending with
  | nil => intro cfg exp c h; simp [exportLoop] at h
  | cons pp rest ih =>
      intro cfg exp c h
      cases ho : o pp.id with
      | ok =>
          simp only [exportLoop, ho, List.mem_cons] at h
          rcases h with h | h | h | h
          · exact absurd h (by simp)
          · exact absurd h (by simp)
          · have hc : c = { cfg with exported_pages := some (pySetAdd exp pp.id) } := by
              simpa using h
            subst hc
            refine ⟨pySetAdd exp pp.id, rfl, fun pid hpid => ?_⟩
            rcases (mem_pySetAdd exp pp.id pid).mp hpid with h2 | h2
            · exact Or.inl h2
            · subst h2; exact Or.inr ho
          · obtain ⟨l2, hl2, hall⟩ := ih _ _ c h
            refine ⟨l2, hl2, fun pid hpid => ?_⟩
            rcases hall pid hpid with h2 | h2
            · rcases (mem_pySetAdd exp pp.id pid).mp h2 with h3 | h3
              · exact Or.inl h3
              · subst h3; exact Or.inr ho
            · exact Or.inr h2
      | convertFail m =>
          simp only [exportLoop, ho, List.mem_cons] at h
          rcases h with h | h
          · exact absurd h (by simp)
          · exact ih _ _ c h
      | publishFail m =>
          simp only [exportLoop, ho, List.mem_cons] at h
          rcases h with h | h | h
          · exact absurd h (by simp)
          · exact absurd h (by simp)
          · exact ih _ _ c h

/-- Page id and body text of every publish invocation of a trace, in order. -/
def publishedList : List Effect → List (String × String)
  | [] => []
  | Effect.publish pid _ _ body _ :: rest => (pid, body) :: publishedList rest
  | _ :: rest => publishedList rest

/-- True when the pipeline reaches the publish stage for this outcome, i.e.
conversion did not fail. -/
def attemptsPublish : Outcome → Bool
  | .convertFail _ => false
  | _ => true

/-- The page id an external-tool effect refers to, if any. -/
def effectPid : Effect → Option String
  | .convert pid => some pid
  | .publish pid _ _ _ _ => some pid
  | _ => none

/-- The publish invocations of a loop trace are exactly the pending pages that
reach the publish stage, in pending order, each with the body text built from
its declared 0-based position. -/
theorem exportLoop_publishedList (o : String → Outcome) (f : PageDate → String)
    (name jour : String) :
    ∀ (pending : List PendingPage) (cfg : Config) (exp : List String),
      publishedList (exportLoop o f name jour cfg exp pending).trace
        = (pending.filter (fun pp => attemptsPublish (o pp.id))).map
            (fun pp => (pp.id, pageBody name pp.idx)) := by
  intro pending
  induction pending with
  | nil => intro cfg exp; simp [exportLoop, publishedList]
  | cons pp rest ih =>
      intro cfg exp
      cases ho : o pp.id with
      | ok => simp [exportLoop, ho, publishedList, ih, List.filter_cons, attemptsPublish]
      | convertFail m =>
          simp [exportLoop, ho, publishedList, ih, List.filter_cons, attemptsPublish]
      | publishFail m =>
          simp [exportLoop, ho, publishedList, ih, List.filter_cons, attemptsPublish]

/-- Every convert/publish effect in a loop trace refers to a pending page. -/
theorem exportLoop_effect_pages (o : String → Outcome) (f : PageDate → String)
    (name jour : String) :
    ∀ (pending : List PendingPage) (cfg : Config) (exp : List String)
      (eff : Effect) (pid : String),
      eff ∈ (exportLoop o f name jour cfg exp pending).trace →
      effectPid eff = some pid →
      ∃ pp, pp ∈ pending ∧ pp.id = pid := by
  intro pending
  induction pending with
  | nil => intro cfg exp eff pid h; simp [exportLoop] at h
  | cons pp rest ih =>
      intro cfg exp eff pid h hpid
      cases ho : o pp.id with
      | ok =>
          simp only [exportLoop, ho, List.mem_cons] at h
          rcases h with h | h | h | h
          · subst h; simp only [effectPid, Option.some.injEq] at hpid
            exact ⟨pp, List.mem_cons_self _ _, hpid⟩
          · subst h; simp only [effectPid, Option.some.injEq] at hpid
            exact ⟨pp, List.mem_cons_self _ _, hpid⟩
          · subst h; simp [effectPid] at hpid
          · obtain ⟨pp2, h2, h3⟩ := ih _ _ eff pid h hpid
            exact ⟨pp2, List.mem_cons_of_mem _ h2, h3⟩
      | convertFail m =>
          simp only [exportLoop, ho, List.mem_cons] at h
          rcases h with h | h
          · subst h; simp only [effectPid, Option.some.injEq] at hpid
            exact ⟨pp, List.mem_cons_self _ _, hpid⟩
          · obtain ⟨pp2, h2, h3⟩ := ih _ _ eff pid h hpid
            exact ⟨pp2, List.mem_cons_of_mem _ h2, h3⟩
      | publishFail m =>
          simp only [exportLoop, ho, List.mem_cons] at h
          rcases h with h | h | h
          · subst h; simp only [effectPid, Option.some.injEq] at hpid
            exact ⟨pp, List.mem_cons_self _ _, hpid⟩
          · subst h; simp only [effectPid, Option.some.injEq] at hpid
            exact ⟨pp, List.mem_cons_self _ _, hpid⟩
          · obtain ⟨pp2, h2, h3⟩ := ih _ _ eff pid h hpid
            exact ⟨pp2, List.mem_cons_of_mem _ h2, h3⟩

/-- Trace discipline check: every publish invocation for a page whose outcome
is success is immediately followed by a config save whose exported set contains
that page's id. -/
def savedRightAfterPublish (o : String → Outcome) : List Effect → Bool
  | [] => true
  | Effect.publish pid _ _ _ _ :: rest =>
      (match o pid, rest with
       | Outcome.ok, Effect.save c :: _ => decide (pid ∈ c.exported_pages.getD [])
       | Outcome.ok, _ => false
       | _, _ => true) && savedRightAfterPublish o rest
  | _ :: rest => savedRightAfterPublish o rest

/-- The export loop satisfies the publish-then-immediately-save discipline. -/
theorem exportLoop_savedRightAfterPublish (o : String → Outcome)
    (f : PageDate → String) (name jour : String) :
    ∀ (pending : List PendingPage) (cfg : Config) (exp : List String),
      savedRightAfterPublish o (exportLoop o f name jour cfg exp pending).trace
        = true := by
  intro pending
  induction pending with
  | nil => intro cfg exp; simp [exportLoop, savedRightAfterPublish]
  | cons pp rest ih =>
      intro cfg exp
      cases ho : o pp.id with
      | ok =>
          simp only [exportLoop, ho, savedRightAfterPublish, Bool.and_eq_true]
          refine ⟨?_, ih _ _⟩
          simp [ho, mem_pySetAdd]
      | convertFail m => simp [exportLoop, ho, savedRightAfterPublish, ih]
      | publishFail m =>
          simp only [exportLoop, ho, savedRightAfterPublish, Bool.and_eq_true]
          refine ⟨?_, ih _ _⟩
          simp [ho]

/-- True when no effect of the trace refers to the given page id. -/
def pageUntouched (pid : String) (tr : List Effect) : Bool :=
  tr.all fun eff => decide (effectPid eff ≠ some pid)

/-- True when no saved configuration of the trace contains the given page
id. -/
def saveFreeOf (pid : String) (tr : List Effect) : Bool :=
  tr.all fun eff =>
    match eff with
    | Effect.save c => decide (pid ∉ c.exported_pages.getD [])
    | _ => true

/-- True when the trace consists only of dry-run report lines. -/
def dryRunEffectsOnly (tr : List Effect) : Bool :=
  tr.all fun eff =>
    match eff with
    | Effect.printPending _ _ _ => true
    | _ => false

/-- True when every saved configuration of the trace carries an
`exported_pages` field. -/
def savesFieldSome (tr : List Effect) : Bool :=
  tr.all fun eff =>
    match eff with
    | Effect.save c => c.exported_pages.isSome
    | _ => true

/-- True when some save of the trace carries an `exported_pages` field. -/
def anySaveFieldSome (tr : List Effect) : Bool :=
  tr.any fun eff =>
    match eff with
    | Effect.save c => c.exported_pages.isSome
    | _ => false

/-- A page that failed, and was not exported before, appears in no saved
configuration of the loop trace. -/
theorem exportLoop_saveFreeOf (o : String → Outcome) (f : PageDate → String)
    (name jour : String) (pending : List PendingPage) (cfg : Config)
    (exp : List String) (pid : String)
    (h1 : pid ∉ exp) (h2 : o pid ≠ Outcome.ok) :
    saveFreeOf pid (exportLoop o f name jour cfg exp pending).trace = true := by
  unfold saveFreeOf
  rw [List.all_eq_true]
  intro eff heff
  cases eff with
  | save c =>
      rw [decide_eq_true_eq]
      intro hcontra
      obtain ⟨l2, hl2, hall⟩ :=
        exportLoop_save_sound o f name jour pending cfg exp c heff
      rw [hl2] at hcontra
      simp only [Option.getD_some] at hcontra
      rcases hall pid hcontra with h3 | h3
      · exact h1 h3
      · exact h2 h3
  | convert pid2 => rfl
  | publish pid2 a b c d => rfl
  | printPending a b c => rfl

/-- A page id that no pending page carries is referred to by no effect of the
loop trace. -/
theorem exportLoop_pageUntouched (o : String → Outcome) (f : PageDate → String)
    (name jour : String) (pending : List PendingPage) (cfg : Config)
    (exp : List String) (pid : String)
    (h : ∀ pp, pp ∈ pending → pp.id ≠ pid) :
    pageUntouched pid (exportLoop o f name jour cfg exp pending).trace = true := by
  unfold pageUntouched
  rw [List.all_eq_true]
  intro eff heff
  rw [decide_eq_true_eq]
  intro hcontra
  obtain ⟨pp, hpp, hid⟩ :=
    exportLoop_effect_pages o f name jour pending cfg exp eff pid heff hcontra
  exact h pp hpp hid

/-- Every configuration the loop saves carries an `exported_pages` field. -/
theorem exportLoop_savesFieldSome (o : String → Outcome) (f : PageDate → String)
    (name jour : String) (pending : List PendingPage) (cfg : Config)
    (exp : List String) :
    savesFieldSome (exportLoop o f name jour cfg exp pending).trace = true := by
  unfold savesFieldSome
  rw [List.all_eq_true]
  intro eff heff
  cases eff with
  | save c =>
      obtain ⟨l2, hl2, _⟩ :=
        exportLoop_save_sound o f name jour pending cfg exp c heff
      simp [hl2]
  | convert pid2 => rfl
  | publish pid2 a b c d => rfl
  | printPending a b c => rfl

/-- As soon as one page succeeds, the loop trace contains a config save with an
`exported_pages` field. -/
theorem exportLoop_pos_save (o : String → Outcome) (f : PageDate → String)
    (name jour : String) :
    ∀ (pending : List PendingPage) (cfg : Config) (exp : List String),
      0 < (exportLoop o f name jour cfg exp pending).okCount →
      anySaveFieldSome (exportLoop o f name jour cfg exp pending).trace = true := by
  intro pending
  induction pending with
  | nil => intro cfg exp h; simp [exportLoop] at h
  | cons pp rest ih =>
      intro cfg exp h
      cases ho : o pp.id with
      | ok => simp [exportLoop, ho, anySaveFieldSome]
      | convertFail m =>
          simp only [exportLoop, ho] at h ⊢
          simpa [anySaveFieldSome] using ih _ _ h
      | publishFail m =>
          simp only [exportLoop, ho] at h ⊢
          simpa [anySaveFieldSome] using ih _ _ h

/-- A dry run emits only report lines: no conversion, no publish, no config
save, on any environment. -/
theorem run_export_dry_effects (env : Env) :
    dryRunEffectsOnly (run_export env true).2 = true := by
  rcases hc : env.config with _ | cfg
  · simp [run_export, hc, dryRunEffectsOnly]
  · cases hm : env.metaExists cfg.remarkable_notebook_guid with
    | false => simp [run_export, hc, hm, dryRunEffectsOnly]
    | true =>
        rcases hg : get_page_list env.contentPages with _ | infos
        · simp [run_export, hc, hm, hg, dryRunEffectsOnly]
        · cases he : infos.isEmpty with
          | true => simp [run_export, hc, hm, hg, he, dryRunEffectsOnly]
          | false =>
              cases hp : (computePending (cfg.exported_pages.getD [])
                  env.rmExists infos).isEmpty with
              | true => simp [run_export, hc, hm, hg, he, hp, dryRunEffectsOnly]
              | false =>
                  simp only [run_export, hc, hm, hg, he, hp, Bool.false_eq_true,
                    if_false, if_true, dryRunEffectsOnly, List.all_eq_true]
                  intro eff heff
                  obtain ⟨pp, hpp, rfl⟩ := List.mem_map.mp heff
                  rfl

/-- When a dry run reaches its report stage, its trace is exactly one report
line per pending page: 1-based position, id truncated to 8 characters, and the
formatted resolved date. -/
theorem run_export_dry_trace (env : Env) :
    (run_export env true).1 = RunOutcome.dryRunDone →
    (run_export env true).2 = (pendingOf env).map
      (fun pp => Effect.printPending (pp.idx + 1) (pp.id.take 8) (env.fmt pp.date)) := by
  rcases hc : env.config with _ | cfg
  · simp [run_export, hc]
  · cases hm : env.metaExists cfg.remarkable_notebook_guid with
    | false => simp [run_export, hc, hm]
    | true =>
        rcases hg : get_page_list env.contentPages with _ | infos
        · simp [run_export, hc, hm, hg]
        · cases he : infos.isEmpty with
          | true => simp [run_export, hc, hm, hg, he]
          | false =>
              cases hp : (computePending (cfg.exported_pages.getD [])
                  env.rmExists infos).isEmpty with
              | true => simp [run_export, hc, hm, hg, he, hp]
              | false =>
                  intro _
                  simp [run_export, hc, hm, hg, he, hp, pendingOf]

/-- Every configuration a non-dry run saves carries an `exported_pages`
field. -/
theorem run_export_savesFieldSome (env : Env) :
    savesFieldSome (run_export env false).2 = true := by
  rcases hc : env.config with _ | cfg
  · simp [run_export, hc, savesFieldSome]
  · cases hm : env.metaExists cfg.remarkable_notebook_guid with
    | false => simp [run_export, hc, hm, savesFieldSome]
    | true =>
        rcases hg : get_page_list env.contentPages with _ | infos
        · simp [run_export, hc, hm, hg, savesFieldSome]
        · cases he : infos.isEmpty with
          | true => simp [run_export, hc, hm, hg, he, savesFieldSome]
          | false =>
              cases hp : (computePending (cfg.exported_pages.getD [])
                  env.rmExists infos).isEmpty with
              | true => simp [run_export, hc, hm, hg, he, hp, savesFieldSome]
              | false =>
                  simp only [run_export, hc, hm, hg, he, hp, Bool.false_eq_true,
                    if_false]
                  exact exportLoop_savesFieldSome env.outcome env.fmt
                    cfg.remarkable_notebook_name cfg.dayone_journal
                    (computePending (cfg.exported_pages.getD []) env.rmExists infos)
                    cfg (cfg.exported_pages.getD [])

/-- If a non-dry run finishes with a positive success count, its trace contains
a config save carrying an `exported_pages` field. -/
theorem run_export_done_save (env : Env) (k e2 : Nat) :
    (run_export env false).1 = RunOutcome.done k e2 → 0 < k →
    anySaveFieldSome (run_export env false).2 = true := by
  rcases hc : env.config with _ | cfg
  · simp [run_export, hc]
  · cases hm : env.metaExists cfg.remarkable_notebook_guid with
    | false => simp [run_export, hc, hm]
    | true =>
        rcases hg : get_page_list env.contentPages with _ | infos
        · simp [run_export, hc, hm, hg]
        · cases he : infos.isEmpty with
          | true => simp [run_export, hc, hm, hg, he]
          | false =>
              cases hp : (computePending (cfg.exported_pages.getD [])
                  env.rmExists infos).isEmpty with
              | true => simp [run_export, hc, hm, hg, he, hp]
              | false =>
                  simp only [run_export, hc, hm, hg, he, hp, Bool.false_eq_true,
                    if_false, RunOutcome.done.injEq]
                  rintro ⟨rfl, rfl⟩ hpos
                  exact exportLoop_pos_save env.outcome env.fmt
                    cfg.remarkable_notebook_name cfg.dayone_journal
                    (computePending (cfg.exported_pages.getD []) env.rmExists infos)
                    cfg (cfg.exported_pages.getD []) hpos

/-- Concrete configuration used by witness instantiations. -/
def sampleCfg : Config := ⟨"G", "NB", "J", none⟩

/-- Concrete date formatter used by witness instantiations. -/
def sampleFmt : PageDate → String :=
  fun d =>
    match d with
    | .fromMs ms => toString ms
    | .fromMtime pid2 => pid2

/-- Concrete external-tool oracle used by witness instantiations: page `p2`
fails conversion, every other page succeeds. -/
def sampleOutcome : String → Outcome :=
  fun s => if s = "p2" then Outcome.convertFail ("boom") else Outcome.ok

/-- Concrete pending list used by witness instantiations. -/
def samplePending : List PendingPage :=
  [⟨0, "p1", PageDate.fromMs 5⟩, ⟨1, "p2", PageDate.fromMs 7⟩,
    ⟨2, "p3", PageDate.fromMtime ("p3")⟩]

/-- Concrete environment used by witness instantiations: two declared pages,
page `A` with a stroke file and a timestamp, page `B` with neither. -/
def sampleEnv : Env where
  config := some sampleCfg
  metaExists := fun _ => true
  contentPages :=
    [⟨some ("A"), some (JVal.num 1700000000000), none⟩, ⟨some ("B"), none, none⟩]
  rmExists := fun s => decide (s = "A")
  fmt := sampleFmt
  outcome := fun _ => Outcome.ok

/-- C1: in the DIFFING stage of an export run, a declared page is kept as
pending iff its identifier is not in the persisted exported set and its backing
stroke file exists on disk; a dropped page id (already exported or lacking a
backing file) is never referred to by any conversion or publish effect of the
export loop, so it is never attempted and never counted as an error. -/
theorem claim1_diffing_pending_iff (e : List String) (r : String → Bool)
    (infos : List PageInfo) (i : Nat) (info : PageInfo) (pid : String)
    (o : String → Outcome) (f : PageDate → String) (name jour : String)
    (cfg : Config)
    (h : infos[i]? = some info)
    (hdrop : pid ∈ e ∨ r pid = false) :
    ((⟨i, info.id, pageDateOf info⟩ : PendingPage) ∈ computePending e r infos
      ↔ (info.id ∉ e ∧ r info.id = true))
    ∧ pageUntouched pid
        (exportLoop o f name jour cfg e (computePending e r infos)).trace = true := by
  constructor
  · constructor
    · intro hmem
      obtain ⟨jdx, info2, _, _, hid, _, hm, hr⟩ :=
        (mem_computePending_iff e r infos _).mp hmem
      have hid2 : info.id = info2.id := hid
      rw [hid2]
      exact ⟨hm, hr⟩
    · rintro ⟨hm, hr⟩
      exact (mem_computePending_iff e r infos _).mpr ⟨i, info, h, rfl, rfl, rfl, hm, hr⟩
  · apply exportLoop_pageUntouched
    intro pp hpp heq
    obtain ⟨hnot, hrr⟩ := computePending_conds e r infos pp hpp
    rcases hdrop with hd2 | hd2
    · rw [heq] at hnot; exact hnot hd2
    · rw [heq] at hrr; rw [hd2] at hrr; exact Bool.false_ne_true hrr

/-- Witness for C1 on the spec's concrete scenario: page `A` backed by a
stroke file is pending, page `B` without one is dropped and untouched. -/
theorem claim1_diffing_pending_iff_witness :
    ((⟨0, (⟨"A", 1700000000000⟩ : PageInfo).id,
        pageDateOf (⟨"A", 1700000000000⟩ : PageInfo)⟩ : PendingPage)
        ∈ computePending [] (fun s => decide (s = "A"))
            [⟨"A", 1700000000000⟩, ⟨"B", 0⟩]
      ↔ ((⟨"A", 1700000000000⟩ : PageInfo).id ∉ ([] : List String)
          ∧ (fun s => decide (s = "A")) (⟨"A", 1700000000000⟩ : PageInfo).id = true))
    ∧ pageUntouched ("B")
        (exportLoop sampleEnv.outcome sampleFmt ("NB") ("J") sampleCfg []
          (computePending [] (fun s => decide (s = "A"))
            [⟨"A", 1700000000000⟩, ⟨"B", 0⟩])).trace = true :=
  claim1_diffing_pending_iff [] (fun s => decide (s = "A"))
    [⟨"A", 1700000000000⟩, ⟨"B", 0⟩] 0 ⟨"A", 1700000000000⟩ ("B")
    sampleEnv.outcome sampleFmt ("NB") ("J") sampleCfg (by decide)
    (Or.inr (by decide))

/-- C2: in the export loop, every publish that succeeds is immediately followed
in the effect trace by a config save whose exported set contains the page's id,
before any effect of the next pending page; and a page that fails (and was not
exported before) is neither in the final exported set nor in any saved
configuration. -/
theorem claim2_save_discipline (o : String → Outcome) (f : PageDate → String)
    (name jour : String) (cfg : Config) (exp : List String)
    (pending : List PendingPage) (pid : String)
    (h1 : pid ∉ exp) (h2 : o pid ≠ Outcome.ok) :
    savedRightAfterPublish o (exportLoop o f name jour cfg exp pending).trace = true
    ∧ pid ∉ (exportLoop o f name jour cfg exp pending).exported
    ∧ saveFreeOf pid (exportLoop o f name jour cfg exp pending).trace = true := by
  refine ⟨exportLoop_savedRightAfterPublish o f name jour pending cfg exp, ?_,
    exportLoop_saveFreeOf o f name jour pending cfg exp pid h1 h2⟩
  intro hcontra
  rcases (exportLoop_mem_exported o f name jour pending cfg exp pid).mp hcontra with
    h3 | ⟨pp, _, hid, hok⟩
  · exact h1 h3
  · rw [hid] at hok; exact h2 hok

/-- Witness for C2: three pending pages where `p2` fails conversion; the trace
keeps the save-immediately-after-publish discipline and `p2` reaches no saved
configuration. -/
theorem claim2_save_discipline_witness :
    savedRightAfterPublish sampleOutcome
      (exportLoop sampleOutcome sampleFmt ("NB") ("J") sampleCfg []
        samplePending).trace = true
    ∧ ("p2") ∉ (exportLoop sampleOutcome sampleFmt ("NB") ("J") sampleCfg []
        samplePending).exported
    ∧ saveFreeOf ("p2")
        (exportLoop sampleOutcome sampleFmt ("NB") ("J") sampleCfg []
          samplePending).trace = true :=
  claim2_save_discipline sampleOutcome sampleFmt ("NB") ("J") sampleCfg []
    samplePending ("p2") (by decide) (by decide)

/-- C3 counterexample: `save_config` performs no rename at all — it writes the
configuration file directly in place — so the claimed write-then-rename
discipline does not hold. -/
theorem claim3_write_rename_counterexample :
    usesRename (save_config sampleCfg) = false
    ∧ FsOp.write CONFIG_FILE sampleCfg ∈ save_config sampleCfg := by
  exact ⟨rfl, by simp [save_config]⟩

/-- C3 amended: the store's save creates the containing directory if missing
and then writes the configuration directly (in place) to the configuration
file; it uses no temp-file-plus-rename step. -/
theorem claim3_save_in_place (c : Config) :
    save_config c = [FsOp.mkdirp CONFIG_DIR, FsOp.write CONFIG_FILE c]
    ∧ usesRename (save_config c) = false :=
  ⟨rfl, rfl⟩

/-- C4 counterexample: a page whose misspelled timestamp key holds a truthy
string not parsable as an integer makes the resolver raise (modelled as
`none`), refuting the claim that a bad per-page timestamp never makes it
fail. -/
theorem claim4_unparsable_counterexample :
    get_page_list [⟨some ("p1"), some (JVal.str ("recently")), none⟩] = none := by
  decide

/-- C4 amended: the resolver takes the timestamp from the misspelled key
`modifed` when present, else `modified`, else the literal string "0"; a falsy
value (absent keys included) yields zero; a truthy value parsable as an integer
yields that integer; but a truthy value unparsable as an integer raises an
error instead of yielding zero. -/
theorem claim4_timestamp_resolution (p : RawPage) (pid : String)
    (h : p.id = some pid) :
    timestampField p = p.modifed.getD (p.modified.getD (JVal.str ("0")))
    ∧ (p.modifed = none → p.modified = none →
        get_page_list [p] = some [⟨pid, 0⟩])
    ∧ (pyTruthy (timestampField p) = false →
        get_page_list [p] = some [⟨pid, 0⟩])
    ∧ (∀ n2 : Int, pyTruthy (timestampField p) = true →
        pyToInt (timestampField p) = some n2 →
        get_page_list [p] = some [⟨pid, n2⟩])
    ∧ (pyTruthy (timestampField p) = true → pyToInt (timestampField p) = none →
        get_page_list [p] = none) := by
  obtain ⟨pid0, mf, md⟩ := p
  simp only at h
  subst h
  refine ⟨?_, ?_, ?_, ?_, ?_⟩
  · cases mf <;> cases md <;> rfl
  · rintro rfl rfl
    have hT : pyTruthy (JVal.str ("0")) = true := by decide
    have hP : pyToInt (JVal.str ("0")) = some 0 := by decide
    simp [get_page_list, timestampField, timestampMs, hT, hP]
  · intro hfalse
    simp [get_page_list, timestampMs, hfalse]
  · intro n2 htrue hparse
    simp [get_page_list, timestampMs, htrue, hparse]
  · intro htrue hparse
    simp [get_page_list, timestampMs, htrue, hparse]

/-- Witness for C4 amended, on a page carrying a numeric timestamp under the
misspelled key. -/
theorem claim4_timestamp_resolution_witness :
    timestampField ⟨some ("pw"), some (JVal.num 10), none⟩
      = (some (JVal.num 10)).getD ((none : Option JVal).getD (JVal.str ("0")))
    ∧ ((⟨some ("pw"), some (JVal.num 10), none⟩ : RawPage).modifed = none →
        (⟨some ("pw"), some (JVal.num 10), none⟩ : RawPage).modified = none →
        get_page_list [⟨some ("pw"), some (JVal.num 10), none⟩] = some [⟨"pw", 0⟩])
    ∧ (pyTruthy (timestampField ⟨some ("pw"), some (JVal.num 10), none⟩) = false →
        get_page_list [⟨some ("pw"), some (JVal.num 10), none⟩] = some [⟨"pw", 0⟩])
    ∧ (∀ n2 : Int,
        pyTruthy (timestampField ⟨some ("pw"), some (JVal.num 10), none⟩) = true →
        pyToInt (timestampField ⟨some ("pw"), some (JVal.num 10), none⟩) = some n2 →
        get_page_list [⟨some ("pw"), some (JVal.num 10), none⟩] = some [⟨"pw", n2⟩])
    ∧ (pyTruthy (timestampField ⟨some ("pw"), some (JVal.num 10), none⟩) = true →
        pyToInt (timestampField ⟨some ("pw"), some (JVal.num 10), none⟩) = none →
        get_page_list [⟨some ("pw"), some (JVal.num 10), none⟩] = none) :=
  claim4_timestamp_resolution ⟨some ("pw"), some (JVal.num 10), none⟩ ("pw") rfl

/-- C5: the export loop walks the pending pages in the notebook's declared
page-list order (pending indices are strictly increasing declared positions),
and every publish invocation carries the body text built from the page's
1-based position in the full declared sequence, independent of which other
pages were dropped or failed. -/
theorem claim5_order_and_body (o : String → Outcome) (f : PageDate → String)
    (name jour : String) (cfg : Config) (e : List String) (r : String → Bool)
    (infos : List PageInfo) :
    publishedList
        (exportLoop o f name jour cfg e (computePending e r infos)).trace
      = ((computePending e r infos).filter
            (fun pp => attemptsPublish (o pp.id))).map
          (fun pp => (pp.id, pageBody name pp.idx))
    ∧ (computePending e r infos).Pairwise (fun a b => a.idx < b.idx)
    ∧ ∀ pp, pp ∈ computePending e r infos →
        ∃ info, infos[pp.idx]? = some info ∧ info.id = pp.id := by
  refine ⟨exportLoop_publishedList o f name jour (computePending e r infos) cfg e,
    computePending_pairwise e r infos, ?_⟩
  intro pp hpp
  obtain ⟨jdx, info, hg, hi, hid, _, _, _⟩ :=
    (mem_computePending_iff e r infos pp).mp hpp
  rw [hi]
  exact ⟨info, hg, hid.symm⟩

/-- C6: a conversion or publish failure is handled per page: the final
counters count exactly the succeeding and the failing pending pages, a failing
page's id stays out of the exported set, and any other pending page that
succeeds — before or after the failure — is still exported and published with
its positional body text; the run's terminal `done` report carries those two
counters. -/
theorem claim6_partial_failure (o : String → Outcome) (f : PageDate → String)
    (name jour : String) (cfg : Config) (exp : List String)
    (pending : List PendingPage) (ppF ppS : PendingPage)
    (hF : ppF ∈ pending) (hFfail : o ppF.id ≠ Outcome.ok) (hFnew : ppF.id ∉ exp)
    (hS : ppS ∈ pending) (hSok : o ppS.id = Outcome.ok) :
    (exportLoop o f name jour cfg exp pending).okCount
      = pending.countP (fun pp => decide (o pp.id = Outcome.ok))
    ∧ (exportLoop o f name jour cfg exp pending).errCount
      = pending.countP (fun pp => decide (o pp.id ≠ Outcome.ok))
    ∧ ppF.id ∉ (exportLoop o f name jour cfg exp pending).exported
    ∧ ppS.id ∈ (exportLoop o f name jour cfg exp pending).exported
    ∧ (ppS.id, pageBody name ppS.idx)
        ∈ publishedList (exportLoop o f name jour cfg exp pending).trace := by
  refine ⟨exportLoop_okCount o f name jour pending cfg exp,
    exportLoop_errCount o f name jour pending cfg exp, ?_, ?_, ?_⟩
  · intro hcontra
    rcases (exportLoop_mem_exported o f name jour pending cfg exp ppF.id).mp hcontra
      with h3 | ⟨pp, _, hid, hok⟩
    · exact hFnew h3
    · rw [hid] at hok; exact hFfail hok
  · exact (exportLoop_mem_exported o f name jour pending cfg exp ppS.id).mpr
      (Or.inr ⟨ppS, hS, rfl, hSok⟩)
  · rw [exportLoop_publishedList o f name jour pending cfg exp]
    exact List.mem_map.mpr
      ⟨ppS, List.mem_filter.mpr ⟨hS, by simp [attemptsPublish, hSok]⟩, rfl⟩

/-- Witness for C6 on the spec's scenario: of three pending pages, `p2` fails
conversion; the counters are 2 exported and 1 failed, `p2` is unexported,
while `p1` and `p3` are exported and published. -/
theorem claim6_partial_failure_witness :
    (exportLoop sampleOutcome sampleFmt ("NB") ("J") sampleCfg []
        samplePending).okCount
      = samplePending.countP (fun pp => decide (sampleOutcome pp.id = Outcome.ok))
    ∧ (exportLoop sampleOutcome sampleFmt ("NB") ("J") sampleCfg []
        samplePending).errCount
      = samplePending.countP (fun pp => decide (sampleOutcome pp.id ≠ Outcome.ok))
    ∧ (⟨1, "p2", PageDate.fromMs 7⟩ : PendingPage).id
        ∉ (exportLoop sampleOutcome sampleFmt ("NB") ("J") sampleCfg []
            samplePending).exported
    ∧ (⟨2, "p3", PageDate.fromMtime ("p3")⟩ : PendingPage).id
        ∈ (exportLoop sampleOutcome sampleFmt ("NB") ("J") sampleCfg []
            samplePending).exported
    ∧ ((⟨2, "p3", PageDate.fromMtime ("p3")⟩ : PendingPage).id,
          pageBody ("NB") (⟨2, "p3", PageDate.fromMtime ("p3")⟩ : PendingPage).idx)
        ∈ publishedList (exportLoop sampleOutcome sampleFmt ("NB") ("J")
            sampleCfg [] samplePending).trace :=
  claim6_partial_failure sampleOutcome sampleFmt ("NB") ("J") sampleCfg []
    samplePending ⟨1, "p2", PageDate.fromMs 7⟩ ⟨2, "p3", PageDate.fromMtime ("p3")⟩
    (by decide) (by decide) (by decide) (by decide) (by decide)

/-- C7: a dry run, on every environment, emits only pending-report effects —
it never invokes the conversion tools or the publisher and never saves the
configuration — and when it reaches its report stage the trace is exactly one
line per pending page with 1-based position, identifier truncated to 8
characters, and the formatted resolved date. -/
theorem claim7_dry_run_purity (env : Env) :
    dryRunEffectsOnly (run_export env true).2 = true
    ∧ ((run_export env true).1 = RunOutcome.dryRunDone →
        (run_export env true).2 = (pendingOf env).map
          (fun pp => Effect.printPending (pp.idx + 1) (pp.id.take 8)
            (env.fmt pp.date))) :=
  ⟨run_export_dry_effects env, run_export_dry_trace env⟩

/-- Witness for C7 on the concrete two-page environment. -/
theorem claim7_dry_run_purity_witness :
    dryRunEffectsOnly (run_export sampleEnv true).2 = true
    ∧ ((run_export sampleEnv true).1 = RunOutcome.dryRunDone →
        (run_export sampleEnv true).2 = (pendingOf sampleEnv).map
          (fun pp => Effect.printPending (pp.idx + 1) (pp.id.take 8)
            (sampleEnv.fmt pp.date))) :=
  claim7_dry_run_purity sampleEnv

/-- C8: re-running setup with the same notebook identifier carries the
existing exported-page set forward into the saved configuration; a different
identifier, or no prior configuration, yields an empty exported-page set. -/
theorem claim8_setup_carry_over (existing : Option Config) (e2 : Config)
    (g nm jour : String) :
    (existing = some e2 → e2.remarkable_notebook_guid = g →
        run_setup_config existing g nm jour
          = ⟨g, nm, jour, some (e2.exported_pages.getD [])⟩)
    ∧ (existing = some e2 → e2.remarkable_notebook_guid ≠ g →
        (run_setup_config existing g nm jour).exported_pages = some [])
    ∧ (existing = none →
        (run_setup_config existing g nm jour).exported_pages = some []) := by
  refine ⟨?_, ?_, ?_⟩
  · rintro rfl hg
    simp [run_setup_config, hg]
  · rintro rfl hg
    simp [run_setup_config, hg]
  · rintro rfl
    rfl

/-- Witness for C8: same-guid setup keeps the stored page `x`; a different
guid, or no prior config, resets the set to empty. -/
theorem claim8_setup_carry_over_witness :
    run_setup_config (some ⟨"G", "Old", "J0", some ["x"]⟩) ("G") ("NB") ("J")
      = ⟨"G", "NB", "J", some ["x"]⟩
    ∧ (run_setup_config (some ⟨"G", "Old", "J0", some ["x"]⟩) ("D") ("NB")
        ("J")).exported_pages = some []
    ∧ (run_setup_config none ("G") ("NB") ("J")).exported_pages = some [] :=
  ⟨(claim8_setup_carry_over (some ⟨"G", "Old", "J0", some ["x"]⟩)
      ⟨"G", "Old", "J0", some ["x"]⟩ ("G") ("NB") ("J")).1 rfl rfl,
    (claim8_setup_carry_over (some ⟨"G", "Old", "J0", some ["x"]⟩)
      ⟨"G", "Old", "J0", some ["x"]⟩ ("D") ("NB") ("J")).2.1 rfl (by decide),
    (claim8_setup_carry_over none ⟨"G", "Old", "J0", some ["x"]⟩ ("G") ("NB")
      ("J")).2.2 rfl⟩

/-- C9: for every combination of inputs, the publisher's argument vector is
the binary, then the scalar options (journal, date), then the variadic options
(tags, attachment), then the explicit end-of-options terminator, then the
action verb `new` and the body text last. -/
theorem claim9_publisher_cmd_order (journal date_str : String)
    (tags : List String) (attachment_path body_text : String) :
    create_dayone_entry_cmd journal date_str tags attachment_path body_text
      = [DAYONE_BIN] ++ scalarOptions journal date_str
          ++ variadicOptions tags attachment_path ++ ["--"] ++ ["new", body_text] := by
  simp [create_dayone_entry_cmd, scalarOptions, variadicOptions]

/-- C10: when the loaded configuration lacks the `exported_pages` field, the
run treats the exported set as empty — a declared page is pending exactly when
its stroke file exists — no failure occurs; and the saves of a non-dry run all
write an `exported_pages` field back, with at least one save as soon as the
terminal report counts one success. -/
theorem claim10_missing_exported_field (env : Env) (cfg : Config)
    (infos : List PageInfo) (i : Nat) (info : PageInfo) (k e2 : Nat)
    (h1 : env.config = some cfg) (h2 : cfg.exported_pages = none)
    (h3 : get_page_list env.contentPages = some infos)
    (h4 : infos[i]? = some info) :
    ((⟨i, info.id, pageDateOf info⟩ : PendingPage)
        ∈ computePending (cfg.exported_pages.getD []) env.rmExists infos
      ↔ env.rmExists info.id = true)
    ∧ savesFieldSome (run_export env false).2 = true
    ∧ ((run_export env false).1 = RunOutcome.done k e2 → 0 < k →
        anySaveFieldSome (run_export env false).2 = true) := by
  refine ⟨?_, run_export_savesFieldSome env, run_export_done_save env k e2⟩
  rw [h2]
  simp only [Option.getD_none]
  constructor
  · intro hmem
    obtain ⟨jdx, info2, _, _, hid, _, _, hr⟩ :=
      (mem_computePending_iff [] env.rmExists infos _).mp hmem
    have hid2 : info.id = info2.id := hid
    rw [hid2]
    exact hr
  · intro hr
    exact (mem_computePending_iff [] env.rmExists infos _).mpr
      ⟨i, info, h4, rfl, rfl, rfl, by simp, hr⟩

/-- Witness for C10 on the concrete environment whose stored config lacks the
`exported_pages` field. -/
theorem claim10_missing_exported_field_witness :
    ((⟨0, (⟨"A", 1700000000000⟩ : PageInfo).id,
        pageDateOf (⟨"A", 1700000000000⟩ : PageInfo)⟩ : PendingPage)
        ∈ computePending (sampleCfg.exported_pages.getD []) sampleEnv.rmExists
            [⟨"A", 1700000000000⟩, ⟨"B", 0⟩]
      ↔ sampleEnv.rmExists (⟨"A", 1700000000000⟩ : PageInfo).id = true)
    ∧ savesFieldSome (run_export sampleEnv false).2 = true
    ∧ ((run_export sampleEnv false).1 = RunOutcome.done 1 0 → 0 < 1 →
        anySaveFieldSome (run_export sampleEnv false).2 = true) :=
  claim10_missing_exported_field sampleEnv sampleCfg
    [⟨"A", 1700000000000⟩, ⟨"B", 0⟩] 0 ⟨"A", 1700000000000⟩ 1 0
    rfl rfl (by decide) (by decide)

end DearDayOne
